import Mathlib

/-!
Verification of the EpicHEX image codec and canvas model.

The development shallowly embeds the two `EHEXImage` classes of the
repository (the legacy v1 RGBA format in `main.js` and the current v2
palette format) as Lean structures and pure functions.  JavaScript
numbers that may be `NaN` (results of `parseInt`) are modelled as
`Option Int`, with `none` standing for `NaN`; all JS comparisons with
`NaN` are false, which the helper predicates reproduce.  Strings are
Lean strings; the JS built-ins used by the code (`split`, `substring`,
`startsWith`, `parseInt`, `toString(16)`, `padStart`, `toUpperCase`)
are modelled explicitly below on the underlying character lists.
-/

/-- A JavaScript number as used by this program: an integer, or `NaN`
(`none`).  `NaN` arises only from failed `parseInt` calls. -/
abbrev JsNum := Option Int

/-- JS comparison `x < w` where `w` may be `NaN` (then the comparison is
false). -/
def jsLtNum (x : Int) : JsNum → Bool
  | some n => x < n
  | none => false

/-- Number of iterations of a JS loop `for (i = 0; i < n; i++)` whose
bound may be `NaN` or negative. -/
def jsIter : JsNum → Nat
  | some v => v.toNat
  | none => 0

/-- The characters `parseInt` skips before the number. -/
def isWs (c : Char) : Bool :=
  c = ' ' || c = '\t' || c = '\n' || c = '\r'

/-- Decimal value of a digit character. -/
def digitVal (c : Char) : Nat := c.toNat - '0'.toNat

/-- Parse a maximal leading run of decimal digits, `none` when there is
no digit (JS `NaN`). -/
def decSeq (cs : List Char) : Option Nat :=
  let ds := cs.takeWhile Char.isDigit
  if ds = [] then none
  else some (ds.foldl (fun a c => a * 10 + digitVal c) 0)

/-- Sign handling of `parseInt` after whitespace skipping. -/
def parseSigned : List Char → JsNum
  | [] => none
  | c :: rest =>
    if c = '-' then (decSeq rest).map (fun n => -(n : Int))
    else if c = '+' then (decSeq rest).map (fun n => (n : Int))
    else (decSeq (c :: rest)).map (fun n => (n : Int))

/-- JS `parseInt(s)` (radix 10): skip whitespace, optional sign, then a
maximal digit run; `none` models `NaN`. -/
def jsParseInt (s : String) : JsNum :=
  parseSigned (s.data.dropWhile isWs)

/-- JS `parseInt(x)` where `x` may be `undefined` (an out-of-range array
index): `parseInt(undefined)` is `NaN`. -/
def jsParseIntOpt : Option String → JsNum
  | some t => jsParseInt t
  | none => none

/-- Value of a hexadecimal digit character, `none` otherwise. -/
def hexCharVal (c : Char) : Option Nat :=
  if '0' ≤ c ∧ c ≤ '9' then some (c.toNat - '0'.toNat)
  else if 'a' ≤ c ∧ c ≤ 'f' then some (c.toNat - 'a'.toNat + 10)
  else if 'A' ≤ c ∧ c ≤ 'F' then some (c.toNat - 'A'.toNat + 10)
  else none

/-- Parse a maximal leading run of hex digits, `none` when there is no
hex digit. -/
def hexSeq (cs : List Char) : Option Nat :=
  let ds := cs.takeWhile (fun c => (hexCharVal c).isSome)
  if ds = [] then none
  else some (ds.foldl (fun a c => a * 16 + (hexCharVal c).getD 0) 0)

/-- The `0x`/`0X` marker stripped by JS `parseInt(s, 16)`. -/
def strip0x : List Char → List Char
  | c1 :: c2 :: rest =>
    if c1 = '0' ∧ (c2 = 'x' ∨ c2 = 'X') then rest else c1 :: c2 :: rest
  | cs => cs

/-- Sign handling of `parseInt(_, 16)` after whitespace skipping. -/
def parseSignedHex : List Char → JsNum
  | [] => none
  | c :: rest =>
    if c = '-' then (hexSeq (strip0x rest)).map (fun n => -(n : Int))
    else if c = '+' then (hexSeq (strip0x rest)).map (fun n => (n : Int))
    else (hexSeq (strip0x (c :: rest))).map (fun n => (n : Int))

/-- JS `parseInt(s, 16)`: whitespace, optional sign, optional `0x`, then
a maximal hex-digit run; `none` models `NaN`. -/
def jsParseHex (s : String) : JsNum :=
  parseSignedHex (s.data.dropWhile isWs)

/-- Digit characters of `n` in base `b`, most significant first.  The
fuel argument only forces termination; `n + 1` units always suffice. -/
def natBaseChars (b : Nat) : Nat → Nat → List Char
  | 0, _ => []
  | fuel + 1, n =>
    if n < b then [Nat.digitChar n]
    else natBaseChars b fuel (n / b) ++ [Nat.digitChar (n % b)]

/-- Decimal rendering of a natural number, as in JS number-to-string
conversion. -/
def natDecStr (n : Nat) : String := ⟨natBaseChars 10 (n + 1) n⟩

/-- Lowercase hexadecimal rendering of a natural number, as in JS
`n.toString(16)`. -/
def natHexStr (n : Nat) : String := ⟨natBaseChars 16 (n + 1) n⟩

/-- JS number-to-string conversion (template literals, base 10). -/
def jsNumToString : JsNum → String
  | none => "NaN"
  | some n => if n < 0 then "-" ++ natDecStr n.natAbs else natDecStr n.toNat

/-- JS `v.toString(16)`. -/
def jsNumToHexString : JsNum → String
  | none => "NaN"
  | some n => if n < 0 then "-" ++ natHexStr n.natAbs else natHexStr n.toNat

/-- JS `s.padStart(2, '0')`. -/
def padStart2 (s : String) : String :=
  if 2 ≤ s.data.length then s
  else ⟨List.replicate (2 - s.data.length) '0' ++ s.data⟩

/-- JS `s.toUpperCase()` (all characters here are ASCII). -/
def jsToUpper (s : String) : String := ⟨s.data.map Char.toUpper⟩

/-- Split a character list at every occurrence of `sep`, JS
`String.prototype.split` semantics (never returns an empty list). -/
def splitCh (sep : Char) : List Char → List (List Char)
  | [] => [[]]
  | c :: rest =>
    if c = sep then [] :: splitCh sep rest
    else
      match splitCh sep rest with
      | [] => [[c]]
      | l :: ls => (c :: l) :: ls

/-- JS `s.split(sep)` for a one-character separator. -/
def jsSplit (sep : Char) (s : String) : List String :=
  (splitCh sep s.data).map String.mk

/-- JS `s.split('\n')`. -/
def splitLines (s : String) : List String := jsSplit '\n' s

/-- The first line of a text, `lines[0]` in the JS decoders (the split
result is never empty). -/
def firstLine (s : String) : String := (splitLines s).headD ""

/-- Does `s` start with `t`?  JS `s.startsWith(t)`. -/
def jsStartsWith (s t : String) : Bool :=
  listStarts t.data s.data
where
  listStarts : List Char → List Char → Bool
    | [], _ => true
    | _ :: _, [] => false
    | a :: as, b :: bs => a = b && listStarts as bs

/-- JS `s.substring(a)` (drop the first `a` characters). -/
def jsSubstrFrom (s : String) (a : Nat) : String := ⟨s.data.drop a⟩

/-- JS `s.substring(a, b)` with `a ≤ b`: the characters in `[a, b)`,
clamped to the string. -/
def jsSubstr (s : String) (a b : Nat) : String := ⟨(s.data.take b).drop a⟩

/-- JS string character access `s[x]`: `none` models `undefined`. -/
def jsCharAt (s : String) (x : Nat) : Option Char := s.data.get? x

/-- Concatenation of a list of strings (JS repeated `+=`). -/
def strJoin (ls : List String) : String := ⟨(ls.map String.data).flatten⟩

/-- Serialize a list of lines, each followed by `"\n"`, as the JS
encoders build their output. -/
def linesToData (ls : List String) : String :=
  strJoin (ls.map (fun l => l ++ "\n"))

namespace V2

/-- The v2 `EHEXImage` class state (`this.magic`, `this.version`,
`this.width`, `this.height`, `this.chars`, `this.pixels`).  A pixel is
the stored palette-index number. -/
structure EHEXImage where
  magic : String
  version : JsNum
  width : JsNum
  height : JsNum
  chars : List String
  pixels : List (List JsNum)
deriving DecidableEq, Repr

/-- The fixed sixteen-glyph ramp, `createDefaultCharset`. -/
def createDefaultCharset : List String :=
  [" ", ".", ":", "-", "=", "+", "*", "#", "%", "&", "$", "@", "Q", "W", "M", "█"]

/-- `createEmptyPixels` for given loop bounds. -/
def createEmptyPixels (w h : JsNum) : List (List JsNum) :=
  List.replicate (jsIter h) (List.replicate (jsIter w) (some 0))

/-- The v2 constructor: clamps the dimensions to `150 × 25` and fills
the grid with palette index `0`. -/
def create (width height : Nat) : EHEXImage :=
  let w : JsNum := some (min (width : Int) 150)
  let h : JsNum := some (min (height : Int) 25)
  { magic := "EHEX2"
    version := some 2
    width := w
    height := h
    chars := createDefaultCharset
    pixels := createEmptyPixels w h }

/-- The bounds test of `setPixel`/`getPixel`:
`x >= 0 && x < width && y >= 0 && y < height`. -/
def inBounds (img : EHEXImage) (x y : Int) : Bool :=
  decide (0 ≤ x) && jsLtNum x img.width && decide (0 ≤ y) && jsLtNum y img.height

/-- `setPixel(x, y, charIndex)`: bounds-checked write, silent no-op when
out of bounds. -/
def setPixel (img : EHEXImage) (x y : Int) (charIndex : JsNum) : EHEXImage :=
  if inBounds img x y then
    { img with
      pixels := img.pixels.set y.toNat
        ((img.pixels.getD y.toNat []).set x.toNat charIndex) }
  else img

/-- `getPixel(x, y)`: the stored value in bounds, `0` out of bounds.
The inner `none` default models the `undefined` a short pixel array
would produce; it is unreachable for grids whose array sizes agree
with `width`/`height`. -/
def getPixel (img : EHEXImage) (x y : Int) : JsNum :=
  if inBounds img x y then (img.pixels.getD y.toNat []).getD x.toNat none
  else some 0

/-- One encoded data row: the hex rendering of `pixels[y][x]` for
`x < width`. -/
def rowData (img : EHEXImage) (y : Nat) : String :=
  strJoin ((List.range (jsIter img.width)).map
    (fun x => jsNumToHexString ((img.pixels.getD y []).getD x none)))

/-- The four header lines `encode` emits. -/
def headerLines (img : EHEXImage) : List String :=
  [img.magic,
   "V" ++ jsNumToString img.version,
   "SIZE:" ++ jsNumToString img.width ++ "x" ++ jsNumToString img.height,
   "PIXELS:"]

/-- The `height` data lines `encode` emits. -/
def dataLines (img : EHEXImage) : List String :=
  (List.range (jsIter img.height)).map (fun y => rowData img y)

/-- `encode()`: header lines then data lines, each line followed by a
newline. -/
def encode (img : EHEXImage) : String :=
  linesToData (headerLines img ++ dataLines img)

/-- The three error exits of the v2 `decode`. -/
inductive DecodeErr where
  | invalidFormat
  | legacyV1
  | unsupportedVersion (v : JsNum)
deriving DecidableEq, Repr

/-- The thrown `Error` messages, verbatim from the source. -/
def DecodeErr.message : DecodeErr → String
  | .invalidFormat => "Invalid EHEX file"
  | .legacyV1 => "EHEX v1 files are not supported. Please convert to v2 format."
  | .unsupportedVersion v => "Unsupported EHEX version: " ++ jsNumToString v

/-- `parsePixels(pixelLines)`: read exactly `height` lines of exactly
`width` hex nibbles, `parseInt(line[x], 16)`.  A missing character
yields `NaN`; the `""` default for a missing line stands in for the
`undefined` on which the JS code would throw a `TypeError`, a case no
theorem below reaches. -/
def parsePixels (img : EHEXImage) (pixelLines : List String) : List (List JsNum) :=
  (List.range (jsIter img.height)).map (fun y =>
    let line := pixelLines.getD y ""
    (List.range (jsIter img.width)).map (fun x =>
      (jsCharAt line x).bind (fun c => (hexCharVal c).map (fun n => (n : Int)))))

/-- The v2 header loop: `V`-lines are version-checked, `SIZE:` lines
overwrite the dimensions in place, `PIXELS:` hands the remaining lines
to `parsePixels` and stops.  The returned pair is the thrown error (if
any) together with the image state at that moment. -/
def decodeHeader (img : EHEXImage) : List String → Option DecodeErr × EHEXImage
  | [] => (none, img)
  | line :: rest =>
    if jsStartsWith line "V" then
      let version := jsParseInt (jsSubstrFrom line 1)
      if version ≠ some 2 then (some (.unsupportedVersion version), img)
      else decodeHeader img rest
    else if jsStartsWith line "SIZE:" then
      let size := jsSplit 'x' (jsSubstrFrom line 5)
      decodeHeader
        { img with
          width := jsParseIntOpt (size.get? 0)
          height := jsParseIntOpt (size.get? 1) } rest
    else if line = "PIXELS:" then
      (none, { img with pixels := parsePixels img rest })
    else decodeHeader img rest

/-- `decode(data)`: magic check, legacy rejection, then the header
loop.  The pair holds the thrown error (if any) and the image state
when `decode` returns or throws. -/
def decode (img : EHEXImage) (data : String) : Option DecodeErr × EHEXImage :=
  let lines := splitLines data
  let magic := lines.headD ""
  if magic ≠ "EHEX2" ∧ magic ≠ "EHEX" then (some .invalidFormat, img)
  else if magic = "EHEX" then (some .legacyV1, img)
  else decodeHeader img (lines.drop 1)

/-- `resize(newWidth, newHeight)`: clamp to `150 × 25`, copy the
overlap, fill the rest with `0`. -/
def resize (img : EHEXImage) (newWidth newHeight : Int) : EHEXImage :=
  let nw := min newWidth 150
  let nh := min newHeight 25
  let newPixels := (List.range nh.toNat).map (fun y =>
    (List.range nw.toNat).map (fun x =>
      if jsLtNum (Int.ofNat y) img.height ∧ jsLtNum (Int.ofNat x) img.width then
        (img.pixels.getD y []).getD x none
      else some 0))
  { img with pixels := newPixels, width := some nw, height := some nh }

/-- A paint operation: coordinates and the palette index written. -/
abbrev Op := Int × Int × Nat

/-- A finite sequence of `setPixel` calls. -/
def applyOps (img : EHEXImage) (ops : List Op) : EHEXImage :=
  ops.foldl (fun g op => setPixel g op.1 op.2.1 (some (op.2.2 : Int))) img

end V2

namespace V1

/-- The v1 `EHEXImage` class state.  A pixel is the stored four-element
array `[r, g, b, a]`. -/
structure EHEXImage where
  magic : String
  version : JsNum
  width : JsNum
  height : JsNum
  channels : JsNum
  pixels : List (List (List JsNum))
deriving DecidableEq, Repr

/-- `createEmptyPixels` for given loop bounds: opaque black. -/
def createEmptyPixels (w h : JsNum) : List (List (List JsNum)) :=
  List.replicate (jsIter h)
    (List.replicate (jsIter w) ([some 0, some 0, some 0, some 255] : List JsNum))

/-- The v1 constructor: no dimension clamp. -/
def create (width height : Nat) : EHEXImage :=
  let w : JsNum := some (width : Int)
  let h : JsNum := some (height : Int)
  { magic := "EHEX"
    version := some 1
    width := w
    height := h
    channels := some 4
    pixels := createEmptyPixels w h }

/-- The bounds test of v1 `setPixel`/`getPixel`. -/
def inBounds (img : EHEXImage) (x y : Int) : Bool :=
  decide (0 ≤ x) && jsLtNum x img.width && decide (0 ≤ y) && jsLtNum y img.height

/-- `setPixel(x, y, r, g, b, a)`: bounds-checked write of `[r,g,b,a]`,
silent no-op when out of bounds. -/
def setPixel (img : EHEXImage) (x y : Int) (r g b a : JsNum) : EHEXImage :=
  if inBounds img x y then
    { img with
      pixels := img.pixels.set y.toNat
        ((img.pixels.getD y.toNat []).set x.toNat [r, g, b, a]) }
  else img

/-- `getPixel(x, y)`: the stored pixel in bounds, `[0, 0, 0, 0]` out of
bounds. -/
def getPixel (img : EHEXImage) (x y : Int) : List JsNum :=
  if inBounds img x y then (img.pixels.getD y.toNat []).getD x.toNat []
  else [some 0, some 0, some 0, some 0]

/-- `rgbaToHex(r, g, b, a)`: four two-digit groups, uppercased. -/
def rgbaToHex (r g b a : JsNum) : String :=
  jsToUpper (strJoin
    [padStart2 (jsNumToHexString r),
     padStart2 (jsNumToHexString g),
     padStart2 (jsNumToHexString b),
     padStart2 (jsNumToHexString a)])

/-- `hexToRgba(hex)`: parse the four two-character groups. -/
def hexToRgba (hex : String) : List JsNum :=
  [jsParseHex (jsSubstr hex 0 2),
   jsParseHex (jsSubstr hex 2 4),
   jsParseHex (jsSubstr hex 4 6),
   jsParseHex (jsSubstr hex 6 8)]

/-- One encoded data row: destructure `[r,g,b,a]` and append
`rgbaToHex` for each `x < width`. -/
def rowData (img : EHEXImage) (y : Nat) : String :=
  strJoin ((List.range (jsIter img.width)).map (fun x =>
    let cell := (img.pixels.getD y []).getD x []
    rgbaToHex (cell.getD 0 none) (cell.getD 1 none)
      (cell.getD 2 none) (cell.getD 3 none)))

/-- The five header lines v1 `encode` emits. -/
def headerLines (img : EHEXImage) : List String :=
  [img.magic,
   "V" ++ jsNumToString img.version,
   "SIZE:" ++ jsNumToString img.width ++ "x" ++ jsNumToString img.height,
   "CHANNELS:" ++ jsNumToString img.channels,
   "PIXELS:"]

/-- The `height` data lines v1 `encode` emits. -/
def dataLines (img : EHEXImage) : List String :=
  (List.range (jsIter img.height)).map (fun y => rowData img y)

/-- v1 `encode()`. -/
def encode (img : EHEXImage) : String :=
  linesToData (headerLines img ++ dataLines img)

/-- The single error exit of the v1 `decode`: the magic check. -/
inductive DecodeErr where
  | invalidFormat
deriving DecidableEq, Repr

/-- The thrown v1 `Error` message. -/
def DecodeErr.message : DecodeErr → String
  | .invalidFormat => "Invalid EHEX file"

/-- v1 `parsePixels(pixelLines)`: read exactly `height` lines of
`width` eight-character groups through `hexToRgba`.  The `""` default
for a missing line stands in for the `undefined` on which the JS code
would throw a `TypeError`, a case no theorem below reaches. -/
def parsePixels (img : EHEXImage) (pixelLines : List String) : List (List (List JsNum)) :=
  (List.range (jsIter img.height)).map (fun y =>
    let line := pixelLines.getD y ""
    (List.range (jsIter img.width)).map (fun x =>
      hexToRgba (jsSubstr line (x * 8) ((x + 1) * 8))))

/-- The v1 header loop: `V`-lines store the declared version with no
check, `SIZE:`/`CHANNELS:` lines overwrite metadata, `PIXELS:` hands
the remaining lines to `parsePixels` and stops. -/
def decodeHeader (img : EHEXImage) : List String → Option DecodeErr × EHEXImage
  | [] => (none, img)
  | line :: rest =>
    if jsStartsWith line "V" then
      decodeHeader { img with version := jsParseInt (jsSubstrFrom line 1) } rest
    else if jsStartsWith line "SIZE:" then
      let size := jsSplit 'x' (jsSubstrFrom line 5)
      decodeHeader
        { img with
          width := jsParseIntOpt (size.get? 0)
          height := jsParseIntOpt (size.get? 1) } rest
    else if jsStartsWith line "CHANNELS:" then
      decodeHeader { img with channels := jsParseInt (jsSubstrFrom line 9) } rest
    else if line = "PIXELS:" then
      (none, { img with pixels := parsePixels img rest })
    else decodeHeader img rest

/-- v1 `decode(data)`: magic check, then the header loop. -/
def decode (img : EHEXImage) (data : String) : Option DecodeErr × EHEXImage :=
  let lines := splitLines data
  if lines.headD "" ≠ "EHEX" then (some .invalidFormat, img)
  else decodeHeader img (lines.drop 1)

/-- A v1 paint operation: coordinates and the four channel values. -/
abbrev Op := Int × Int × Nat × Nat × Nat × Nat

/-- A finite sequence of v1 `setPixel` calls. -/
def applyOps (img : EHEXImage) (ops : List Op) : EHEXImage :=
  ops.foldl (fun g op =>
    setPixel g op.1 op.2.1 (some (op.2.2.1 : Int)) (some (op.2.2.2.1 : Int))
      (some (op.2.2.2.2.1 : Int)) (some (op.2.2.2.2.2 : Int))) img

end V1

/-! ### Basic facts about the string model -/

theorem data_mk (l : List Char) : (String.mk l).data = l := rfl

theorem mk_data (s : String) : String.mk s.data = s := rfl

theorem mk_inj {l₁ l₂ : List Char} (h : String.mk l₁ = String.mk l₂) : l₁ = l₂ := by
  have := congrArg String.data h
  simpa using this

/-! ### Digit characters -/

theorem digitChar_isDigit : ∀ d < 10, (Nat.digitChar d).isDigit = true := by decide

theorem digitVal_digitChar : ∀ d < 10, digitVal (Nat.digitChar d) = d := by decide

theorem hexCharVal_digitChar : ∀ d < 16, hexCharVal (Nat.digitChar d) = some d := by decide

theorem hexCharVal_upper_digitChar :
    ∀ d < 16, hexCharVal (Char.toUpper (Nat.digitChar d)) = some d := by decide

theorem digitChar_not_ws : ∀ d < 16, isWs (Nat.digitChar d) = false := by decide

theorem digitChar_ne_dash : ∀ d < 16, Nat.digitChar d ≠ '-' := by decide

theorem digitChar_ne_plus : ∀ d < 16, Nat.digitChar d ≠ '+' := by decide

theorem digitChar_ne_nl : ∀ d < 16, Nat.digitChar d ≠ '\n' := by decide

theorem digitChar_ne_x : ∀ d < 10, Nat.digitChar d ≠ 'x' := by decide

theorem upper_digitChar_not_ws :
    ∀ d < 16, isWs (Char.toUpper (Nat.digitChar d)) = false := by decide

theorem upper_digitChar_ne_dash : ∀ d < 16, Char.toUpper (Nat.digitChar d) ≠ '-' := by decide

theorem upper_digitChar_ne_plus : ∀ d < 16, Char.toUpper (Nat.digitChar d) ≠ '+' := by decide

theorem upper_digitChar_ne_nl : ∀ d < 16, Char.toUpper (Nat.digitChar d) ≠ '\n' := by decide

theorem upper_digitChar_ne_x : ∀ d < 16, Char.toUpper (Nat.digitChar d) ≠ 'x' := by decide

theorem upper_digitChar_ne_X : ∀ d < 16, Char.toUpper (Nat.digitChar d) ≠ 'X' := by decide

/-! ### `natBaseChars` -/

theorem natBaseChars_mem {b : Nat} (hb : 0 < b) :
    ∀ fuel n c, c ∈ natBaseChars b fuel n → ∃ d, d < b ∧ c = Nat.digitChar d := by
  intro fuel
  induction fuel with
  | zero => intro n c hc; simp [natBaseChars] at hc
  | succ f ih =>
    intro n c hc
    rw [natBaseChars] at hc
    by_cases h : n < b
    · rw [if_pos h] at hc
      simp at hc
      exact ⟨n, h, hc⟩
    · rw [if_neg h] at hc
      rcases List.mem_append.mp hc with h1 | h2
      · exact ih _ _ h1
      · simp at h2
        refine ⟨n % b, ?_, h2⟩
        exact Nat.mod_lt _ (by omega)

theorem natBaseChars_ne_nil {b : Nat} :
    ∀ fuel n, n < fuel → natBaseChars b fuel n ≠ [] := by
  intro fuel
  induction fuel with
  | zero => intro n h; omega
  | succ f _ =>
    intro n _
    rw [natBaseChars]
    by_cases h : n < b
    · simp [h]
    · simp [h]

/-- Digit-sequence folding recovers the number (base 10). -/
theorem natBaseChars10_foldl :
    ∀ fuel n, n < fuel →
      (natBaseChars 10 fuel n).foldl (fun a c => a * 10 + digitVal c) 0 = n := by
  intro fuel
  induction fuel with
  | zero => intro n h; omega
  | succ f ih =>
    intro n hn
    rw [natBaseChars]
    by_cases h : n < 10
    · rw [if_pos h]
      simp only [List.foldl_cons, List.foldl_nil, Nat.zero_mul, Nat.zero_add]
      exact digitVal_digitChar n h
    · rw [if_neg h]
      rw [List.foldl_append]
      have hdiv : n / 10 < f := by
        have h1 : n / 10 < n := Nat.div_lt_self (by omega) (by omega)
        omega
      rw [ih _ hdiv]
      simp only [List.foldl_cons, List.foldl_nil]
      have hmod := digitVal_digitChar (n % 10) (Nat.mod_lt _ (by omega))
      rw [hmod]
      omega

theorem natDecChars_all_digits {c : Char} (n : Nat)
    (hc : c ∈ natBaseChars 10 (n + 1) n) : c.isDigit = true := by
  obtain ⟨d, hd, rfl⟩ := natBaseChars_mem (by omega) _ _ _ hc
  exact digitChar_isDigit d hd

theorem decSeq_natDecChars (n : Nat) : decSeq (natBaseChars 10 (n + 1) n) = some n := by
  unfold decSeq
  have hall : (natBaseChars 10 (n + 1) n).takeWhile Char.isDigit = natBaseChars 10 (n + 1) n :=
    List.takeWhile_eq_self_iff.mpr (fun c hc => natDecChars_all_digits n hc)
  rw [hall]
  rw [if_neg (natBaseChars_ne_nil _ _ (by omega))]
  rw [natBaseChars10_foldl _ _ (by omega)]

/-- `parseInt` undoes the decimal rendering of a natural number. -/
theorem jsParseInt_natDecStr (n : Nat) : jsParseInt (natDecStr n) = some (n : Int) := by
  unfold jsParseInt natDecStr
  rw [data_mk]
  have hne := natBaseChars_ne_nil (b := 10) (n + 1) n (by omega)
  obtain ⟨c, cs, hcons⟩ := List.exists_cons_of_ne_nil hne
  obtain ⟨d, hd, hc⟩ := natBaseChars_mem (b := 10) (by omega) (n + 1) n (c := c)
    (by rw [hcons]; exact List.mem_cons_self _ _)
  subst hc
  rw [hcons, List.dropWhile_cons,
    if_neg (by rw [digitChar_not_ws d (by omega)]; simp)]
  rw [parseSigned]
  rw [if_neg (digitChar_ne_dash d (by omega))]
  rw [if_neg (digitChar_ne_plus d (by omega))]
  rw [← hcons, decSeq_natDecChars]
  rfl

theorem jsNumToString_coe (W : Nat) : jsNumToString (some (W : Int)) = natDecStr W := by
  rw [jsNumToString]
  rw [if_neg (by omega)]
  simp

/-- A palette index below 16 renders as its single hex digit. -/
theorem jsNumToHexString_lt16 {v : Nat} (hv : v < 16) :
    jsNumToHexString (some (v : Int)) = String.mk [Nat.digitChar v] := by
  rw [jsNumToHexString]
  rw [if_neg (by omega)]
  unfold natHexStr
  congr 1
  simp only [Int.toNat_natCast]
  rw [natBaseChars]
  rw [if_pos hv]

/-! ### Splitting on a separator -/

theorem splitCh_ne_nil (sep : Char) (cs : List Char) : splitCh sep cs ≠ [] := by
  induction cs with
  | nil => simp [splitCh]
  | cons c rest ih =>
    rw [splitCh]
    by_cases h : c = sep
    · simp [h]
    · rw [if_neg h]
      rcases hsp : splitCh sep rest with _ | ⟨l, ls⟩
      · exact absurd hsp ih
      · simp

theorem splitCh_no_sep {sep : Char} :
    ∀ cs : List Char, sep ∉ cs → splitCh sep cs = [cs] := by
  intro cs
  induction cs with
  | nil => intro _; rfl
  | cons c rest ih =>
    intro h
    rw [splitCh]
    rw [if_neg (by simp at h; exact fun hc => h.1 hc.symm)]
    rw [ih (by simp at h; exact h.2)]

theorem splitCh_append {sep : Char} :
    ∀ (l rest : List Char), sep ∉ l →
      splitCh sep (l ++ sep :: rest) = l :: splitCh sep rest := by
  intro l
  induction l with
  | nil =>
    intro rest _
    simp only [List.nil_append]
    rw [splitCh, if_pos rfl]
  | cons c cs ih =>
    intro rest h
    simp only [List.cons_append]
    rw [splitCh]
    rw [if_neg (by simp at h; exact fun hc => h.1 hc.symm)]
    rw [ih rest (by simp at h; exact h.2)]

/-- Splitting the serialized lines back apart: the JS `split('\n')`
yields the lines plus a final empty string. -/
theorem splitLines_linesToData (ls : List String)
    (h : ∀ l ∈ ls, '\n' ∉ l.data) :
    splitLines (linesToData ls) = ls ++ [""] := by
  unfold splitLines jsSplit linesToData strJoin
  rw [data_mk]
  induction ls with
  | nil => rfl
  | cons l rest ih =>
    simp only [List.map_cons, List.flatten_cons]
    have hdata : (l ++ "\n").data = l.data ++ '\n' :: [] := by
      rw [String.data_append]
    rw [hdata, List.append_assoc, List.singleton_append]
    rw [splitCh_append _ _ (h l (List.mem_cons_self _ _))]
    simp only [List.map_cons, mk_data, List.cons_append]
    congr 1
    exact ih (fun m hm => h m (List.mem_cons_of_mem _ hm))

/-! ### The v2 grid invariant -/

namespace V2

/-- States reachable through `create` followed by `setPixel` calls with
palette indices: consistent dimensions, constructor metadata, every
cell a palette index below 16. -/
def Wf (img : EHEXImage) (W H : Nat) : Prop :=
  img.magic = "EHEX2" ∧ img.version = some 2 ∧
  img.width = some (W : Int) ∧ img.height = some (H : Int) ∧
  img.pixels.length = H ∧
  ∀ row ∈ img.pixels, row.length = W ∧
    ∀ c ∈ row, ∃ v : Nat, v < 16 ∧ c = some (v : Int)

theorem wf_create (w h : Nat) : Wf (create w h) (min w 150) (min h 25) := by
  refine ⟨rfl, rfl, ?_, ?_, ?_, ?_⟩
  · unfold create
    simp only []
    congr 1
    omega
  · unfold create
    simp only []
    congr 1
    omega
  · unfold create createEmptyPixels
    simp [jsIter]
    omega
  · intro row hrow
    unfold create createEmptyPixels at hrow
    simp only [] at hrow
    rw [List.eq_of_mem_replicate hrow]
    constructor
    · simp [jsIter]
      omega
    · intro c hc
      rw [List.eq_of_mem_replicate hc]
      exact ⟨0, by omega, rfl⟩

theorem wf_setPixel {img : EHEXImage} {W H : Nat} (hwf : Wf img W H)
    (x y : Int) {v : Nat} (hv : v < 16) :
    Wf (setPixel img x y (some (v : Int))) W H := by
  obtain ⟨hm, hver, hw, hh, hlen, hcells⟩ := hwf
  unfold setPixel
  by_cases hb : inBounds img x y
  · rw [if_pos hb]
    refine ⟨hm, hver, hw, hh, ?_, ?_⟩
    · simp [hlen]
    · intro row hrow
      rcases List.mem_or_eq_of_mem_set hrow with hmem | heq
      · exact hcells row hmem
      · subst heq
        by_cases hymem : y.toNat < img.pixels.length
        · have hrmem : img.pixels.getD y.toNat [] ∈ img.pixels := by
            rw [List.getD_eq_getElem?_getD, List.getElem?_eq_getElem hymem]
            exact List.getElem_mem _
          obtain ⟨hrl, hrc⟩ := hcells _ hrmem
          constructor
          · rw [List.length_set]
            exact hrl
          · intro c hc
            rcases List.mem_or_eq_of_mem_set hc with hcm | hce
            · exact hrc c hcm
            · exact ⟨v, hv, hce⟩
        · have : img.pixels.getD y.toNat [] = [] := by
            rw [List.getD_eq_getElem?_getD, List.getElem?_eq_none (by omega)]
            rfl
          rw [this]
          constructor
          · -- unreachable: in bounds forces y.toNat < length
            exfalso
            unfold inBounds at hb
            rw [hh] at hb
            simp [jsLtNum] at hb
            omega
          · intro c hc
            simp at hc
  · rw [if_neg hb]
    exact ⟨hm, hver, hw, hh, hlen, hcells⟩

theorem wf_applyOps {img : EHEXImage} {W H : Nat} (hwf : Wf img W H)
    (ops : List Op) (hops : ∀ op ∈ ops, op.2.2 < 16) :
    Wf (applyOps img ops) W H := by
  induction ops generalizing img with
  | nil => exact hwf
  | cons op rest ih =>
    unfold applyOps
    rw [List.foldl_cons]
    exact ih (wf_setPixel hwf _ _ (hops op (List.mem_cons_self _ _)))
      (fun o ho => hops o (List.mem_cons_of_mem _ ho))

end V2

/-! ### Re-parsing an encoded v2 body -/

theorem flatten_map_singleton {α β : Type} (l : List α) (f : α → β) :
    (l.map (fun a => [f a])).flatten = l.map f := by
  induction l with
  | nil => rfl
  | cons a rest ih => simp [ih]

theorem map_range_getD {α β : Type} (l : List α) (d : α) (f : α → β) :
    (List.range l.length).map (fun x => f (l.getD x d)) = l.map f := by
  apply List.ext_getElem
  · simp
  · intro n h1 h2
    simp only [List.getElem_map, List.getElem_range]
    have hn : n < l.length := by simpa using h2
    rw [List.getD_eq_getElem?_getD, List.getElem?_eq_getElem hn]
    rfl

theorem getD_mem_of_lt {α : Type} (l : List α) (d : α) {i : Nat} (h : i < l.length) :
    l.getD i d ∈ l := by
  rw [List.getD_eq_getElem l d h]
  exact List.getElem_mem h

namespace V2

/-- The palette index held by a well-formed cell. -/
def theVal (c : JsNum) : Nat := (c.getD 0).toNat

theorem jsIter_coe (n : Nat) : jsIter (some (n : Int)) = n := by
  simp [jsIter]

theorem rowData_data {img : EHEXImage} {W H : Nat} (hwf : Wf img W H)
    {y : Nat} (hy : y < H) :
    (rowData img y).data =
      (img.pixels.getD y []).map (fun c => Nat.digitChar (theVal c)) := by
  obtain ⟨_, _, hw, _, hlen, hcells⟩ := hwf
  have hrmem : img.pixels.getD y [] ∈ img.pixels := getD_mem_of_lt _ _ (by omega)
  obtain ⟨hrl, hrc⟩ := hcells _ hrmem
  unfold rowData strJoin
  rw [data_mk, hw, jsIter_coe, List.map_map]
  have hcong : (List.range W).map (String.data ∘ fun x =>
      jsNumToHexString ((img.pixels.getD y []).getD x none)) =
      (List.range W).map (fun x =>
        [Nat.digitChar (theVal ((img.pixels.getD y []).getD x none))]) := by
    apply List.map_congr_left
    intro x hx
    have hxW : x < W := List.mem_range.mp hx
    have hcmem : (img.pixels.getD y []).getD x none ∈ img.pixels.getD y [] :=
      getD_mem_of_lt _ _ (by omega)
    obtain ⟨v, hv, hc⟩ := hrc _ hcmem
    simp only [Function.comp_apply, hc]
    rw [jsNumToHexString_lt16 hv, data_mk]
    simp [theVal]
  rw [hcong, flatten_map_singleton]
  have hmr := map_range_getD (img.pixels.getD y []) none
    (fun c => Nat.digitChar (theVal c))
  rw [hrl] at hmr
  exact hmr

theorem dataLines_length (img : EHEXImage) :
    (dataLines img).length = jsIter img.height := by
  simp [dataLines]

theorem parsePixels_dataLines {img : EHEXImage} {W H : Nat} (hwf : Wf img W H)
    (img2 : EHEXImage) (hw2 : img2.width = some (W : Int))
    (hh2 : img2.height = some (H : Int)) (extra : List String) :
    parsePixels img2 (dataLines img ++ extra) = img.pixels := by
  obtain ⟨hm, hver, hw, hh, hlen, hcells⟩ := id hwf
  unfold parsePixels
  rw [hw2, hh2, jsIter_coe, jsIter_coe]
  apply List.ext_getElem
  · simp [hlen]
  · intro y h1 h2
    have hy : y < H := by simpa using h1
    simp only [List.getElem_map, List.getElem_range]
    have hdl : y < (dataLines img).length := by
      rw [dataLines_length, hh, jsIter_coe]
      omega
    have hline : (dataLines img ++ extra).getD y "" = rowData img y := by
      rw [List.getD_append _ _ _ _ hdl, List.getD_eq_getElem _ _ hdl]
      unfold dataLines
      simp only [List.getElem_map, List.getElem_range]
    simp only [hline]
    have hrmem : img.pixels.getD y [] ∈ img.pixels := getD_mem_of_lt _ _ (by omega)
    obtain ⟨hrl, hrc⟩ := hcells _ hrmem
    have hpix : img.pixels[y] = img.pixels.getD y [] :=
      (List.getD_eq_getElem _ _ (by omega)).symm
    rw [hpix]
    apply List.ext_getElem
    · simp only [List.length_map, List.length_range]
      omega
    · intro x hx1 hx2
      have hxW : x < W := by simpa using hx1
      simp only [List.getElem_map, List.getElem_range]
      have hcmem : (img.pixels.getD y []).getD x none ∈ img.pixels.getD y [] :=
        getD_mem_of_lt _ _ (by omega)
      obtain ⟨v, hv, hc⟩ := hrc _ hcmem
      have hval : theVal ((img.pixels.getD y []).getD x none) = v := by
        rw [hc]
        simp [theVal]
      have hcell : (img.pixels.getD y [])[x] = (img.pixels.getD y []).getD x none :=
        (List.getD_eq_getElem _ _ (by omega)).symm
      have hchar : jsCharAt (rowData img y) x = some (Nat.digitChar v) := by
        unfold jsCharAt
        rw [List.get?_eq_getElem?, rowData_data hwf hy, List.getElem?_map,
          List.getElem?_eq_getElem (show x < (img.pixels.getD y []).length by omega)]
        simp only [Option.map_some']
        rw [hcell, hval]
      rw [hchar, Option.some_bind, hexCharVal_digitChar v hv]
      rw [hcell, hc]
      rfl
end V2

namespace V2

/-- The `SIZE:` header line `encode` produces for natural dimensions. -/
def sizeLine (W H : Nat) : String :=
  "SIZE:" ++ natDecStr W ++ "x" ++ natDecStr H

theorem headerLines_wf {img : EHEXImage} {W H : Nat} (hwf : Wf img W H) :
    headerLines img = ["EHEX2", "V2", sizeLine W H, "PIXELS:"] := by
  obtain ⟨hm, hver, hw, hh, _, _⟩ := hwf
  unfold headerLines sizeLine
  rw [hm, hver, hw, hh, jsNumToString_coe, jsNumToString_coe]
  have hv2 : "V" ++ jsNumToString (some 2) = "V2" := by decide
  rw [hv2]

theorem sizeLine_data (W H : Nat) :
    (sizeLine W H).data = 'S' :: 'I' :: 'Z' :: 'E' :: ':' ::
      (natBaseChars 10 (W + 1) W ++ 'x' :: natBaseChars 10 (H + 1) H) := by
  unfold sizeLine natDecStr
  simp [String.data_append, data_mk]

theorem decodeHeader_v2line (img : EHEXImage) (rest : List String) :
    decodeHeader img ("V2" :: rest) = decodeHeader img rest := by
  rw [decodeHeader]
  rw [if_pos (show jsStartsWith "V2" "V" = true by decide)]
  rw [if_neg (show ¬ (jsParseInt (jsSubstrFrom "V2" 1) ≠ some 2) by decide)]

theorem decodeHeader_sizeline (img : EHEXImage) (rest : List String) (W H : Nat) :
    decodeHeader img (sizeLine W H :: rest) =
      decodeHeader
        { img with width := some (W : Int), height := some (H : Int) } rest := by
  have hnoV : jsStartsWith (sizeLine W H) "V" = false := by
    unfold jsStartsWith
    rw [sizeLine_data]
    simp [jsStartsWith.listStarts]
  have hyesS : jsStartsWith (sizeLine W H) "SIZE:" = true := by
    unfold jsStartsWith
    rw [sizeLine_data]
    simp [jsStartsWith.listStarts]
  have hdrop : jsSubstrFrom (sizeLine W H) 5 =
      String.mk (natBaseChars 10 (W + 1) W ++ 'x' :: natBaseChars 10 (H + 1) H) := by
    unfold jsSubstrFrom
    rw [sizeLine_data]
    rfl
  have hnoxW : 'x' ∉ natBaseChars 10 (W + 1) W := by
    intro hmem
    obtain ⟨d, hd, hc⟩ := natBaseChars_mem (by omega) _ _ _ hmem
    exact digitChar_ne_x d hd hc.symm
  have hnoxH : 'x' ∉ natBaseChars 10 (H + 1) H := by
    intro hmem
    obtain ⟨d, hd, hc⟩ := natBaseChars_mem (by omega) _ _ _ hmem
    exact digitChar_ne_x d hd hc.symm
  have hsplit : jsSplit 'x' (jsSubstrFrom (sizeLine W H) 5) =
      [natDecStr W, natDecStr H] := by
    rw [hdrop]
    unfold jsSplit
    rw [data_mk, splitCh_append _ _ hnoxW, splitCh_no_sep _ hnoxH]
    rfl
  rw [decodeHeader]
  rw [if_neg (by rw [hnoV]; simp)]
  rw [if_pos hyesS]
  rw [hsplit]
  simp only [List.get?_eq_getElem?]
  have h0 : ([natDecStr W, natDecStr H] : List String)[0]? = some (natDecStr W) := rfl
  have h1 : ([natDecStr W, natDecStr H] : List String)[1]? = some (natDecStr H) := rfl
  rw [h0, h1]
  simp only [jsParseIntOpt]
  rw [jsParseInt_natDecStr, jsParseInt_natDecStr]

theorem decodeHeader_pixelsline (img : EHEXImage) (rest : List String) :
    decodeHeader img ("PIXELS:" :: rest) =
      (none, { img with pixels := parsePixels img rest }) := by
  rw [decodeHeader]
  rw [if_neg (show ¬ jsStartsWith "PIXELS:" "V" = true by decide)]
  rw [if_neg (show ¬ jsStartsWith "PIXELS:" "SIZE:" = true by decide)]
  rw [if_pos rfl]

end V2

theorem natDecChars_no_nl (n : Nat) : '\n' ∉ natBaseChars 10 (n + 1) n := by
  intro hmem
  obtain ⟨d, hd, hc⟩ := natBaseChars_mem (by omega) _ _ _ hmem
  exact digitChar_ne_nl d (by omega) hc.symm

namespace V2

theorem sizeLine_no_nl (W H : Nat) : '\n' ∉ (sizeLine W H).data := by
  rw [sizeLine_data]
  intro hmem
  simp only [List.mem_cons, List.mem_append] at hmem
  rcases hmem with h | h | h | h | h | h | h | h
  · exact absurd h (by decide)
  · exact absurd h (by decide)
  · exact absurd h (by decide)
  · exact absurd h (by decide)
  · exact absurd h (by decide)
  · exact natDecChars_no_nl W h
  · exact absurd h (by decide)
  · exact natDecChars_no_nl H h

theorem rowData_no_nl {img : EHEXImage} {W H : Nat} (hwf : Wf img W H)
    {y : Nat} (hy : y < H) : '\n' ∉ (rowData img y).data := by
  rw [rowData_data hwf hy]
  intro hmem
  obtain ⟨c, hc, heq⟩ := List.mem_map.mp hmem
  obtain ⟨_, _, _, _, hlen, hcells⟩ := id hwf
  have hrmem : img.pixels.getD y [] ∈ img.pixels := getD_mem_of_lt _ _ (by omega)
  obtain ⟨_, hrc⟩ := hcells _ hrmem
  obtain ⟨v, hv, hcv⟩ := hrc _ hc
  rw [hcv] at heq
  have : theVal (some (v : Int)) = v := by simp [theVal]
  rw [this] at heq
  exact digitChar_ne_nl v hv heq

theorem encode_no_nl {img : EHEXImage} {W H : Nat} (hwf : Wf img W H) :
    ∀ l ∈ ["EHEX2", "V2", sizeLine W H, "PIXELS:"] ++ dataLines img,
      '\n' ∉ l.data := by
  intro l hl
  rcases List.mem_append.mp hl with hh | hd
  · simp only [List.mem_cons, List.not_mem_nil, or_false] at hh
    rcases hh with h | h | h | h
    · rw [h]; decide
    · rw [h]; decide
    · rw [h]; exact sizeLine_no_nl W H
    · rw [h]; decide
  · unfold dataLines at hd
    obtain ⟨y, hy, heq⟩ := List.mem_map.mp hd
    have hyH : y < H := by
      have := List.mem_range.mp hy
      obtain ⟨_, _, _, hhh, _, _⟩ := id hwf
      rw [hhh, jsIter_coe] at this
      exact this
    rw [← heq]
    exact rowData_no_nl hwf hyH

/-- Decoding an encoded well-formed v2 grid into any receiver image
succeeds and reproduces the grid dimensions and pixels. -/
theorem decode_encode {img : EHEXImage} {W H : Nat} (hwf : Wf img W H)
    (img0 : EHEXImage) :
    decode img0 (encode img) =
      (none,
        { img0 with
          width := some (W : Int),
          height := some (H : Int),
          pixels := img.pixels }) := by
  have hsplit : splitLines (encode img) =
      "EHEX2" :: "V2" :: sizeLine W H :: "PIXELS:" :: (dataLines img ++ [""]) := by
    unfold encode
    rw [headerLines_wf hwf]
    rw [splitLines_linesToData _ (encode_no_nl hwf)]
    simp
  unfold decode
  rw [hsplit]
  simp only [List.headD_cons]
  rw [if_neg (by simp)]
  rw [if_neg (by decide)]
  simp only [List.drop_succ_cons, List.drop_zero]
  rw [decodeHeader_v2line, decodeHeader_sizeline, decodeHeader_pixelsline]
  rw [parsePixels_dataLines hwf _ rfl rfl]

end V2

/-! ### The v1 two-digit hex groups -/

theorem natBaseChars_small {b : Nat} (f n : Nat) (hn : n < b) (hf : 0 < f) :
    natBaseChars b f n = [Nat.digitChar n] := by
  cases f with
  | zero => omega
  | succ f => rw [natBaseChars, if_pos hn]

/-- The two uppercase hex characters of one encoded v1 channel byte. -/
def pairU (v : Nat) : List Char :=
  [Char.toUpper (Nat.digitChar (v / 16)), Char.toUpper (Nat.digitChar (v % 16))]

theorem padHex_data {r : Nat} (hr : r < 256) :
    (padStart2 (jsNumToHexString (some (r : Int)))).data =
      [Nat.digitChar (r / 16), Nat.digitChar (r % 16)] := by
  rw [jsNumToHexString]
  rw [if_neg (by omega)]
  unfold natHexStr
  have htn : (r : Int).toNat = r := by omega
  rw [htn]
  by_cases h16 : r < 16
  · rw [natBaseChars_small _ _ h16 (by omega)]
    unfold padStart2
    rw [data_mk]
    simp only [List.length_cons, List.length_nil]
    rw [if_neg (by omega)]
    rw [data_mk]
    have hd : r / 16 = 0 := by omega
    have hm : r % 16 = r := by omega
    rw [hd, hm]
    rfl
  · rw [natBaseChars]
    rw [if_neg h16]
    have hdiv16 : r / 16 < 16 := by omega
    have hfuel : 0 < r := by omega
    rw [natBaseChars_small _ _ hdiv16 hfuel]
    unfold padStart2
    rw [data_mk]
    simp only [List.cons_append, List.nil_append, List.length_cons, List.length_nil]
    rw [if_pos (by omega)]

theorem V1.rgbaToHex_data {r g b a : Nat}
    (hr : r < 256) (hg : g < 256) (hb : b < 256) (ha : a < 256) :
    (V1.rgbaToHex (some (r : Int)) (some (g : Int)) (some (b : Int))
      (some (a : Int))).data = pairU r ++ pairU g ++ pairU b ++ pairU a := by
  unfold V1.rgbaToHex jsToUpper strJoin
  rw [data_mk, data_mk]
  simp only [List.map_cons, List.map_nil, List.flatten_cons, List.flatten_nil,
    List.append_nil]
  rw [padHex_data hr, padHex_data hg, padHex_data hb, padHex_data ha]
  simp [pairU, List.map_append]

theorem pairU_length (v : Nat) : (pairU v).length = 2 := rfl

theorem jsParseHex_pairU {v : Nat} (hv : v < 256) :
    jsParseHex (String.mk (pairU v)) = some (v : Int) := by
  have hd : v / 16 < 16 := by omega
  have hm : v % 16 < 16 := by omega
  unfold jsParseHex pairU
  rw [data_mk]
  rw [List.dropWhile_cons,
    if_neg (by rw [upper_digitChar_not_ws _ hd]; simp)]
  rw [parseSignedHex]
  rw [if_neg (upper_digitChar_ne_dash _ hd)]
  rw [if_neg (upper_digitChar_ne_plus _ hd)]
  have hstrip : strip0x [Char.toUpper (Nat.digitChar (v / 16)),
      Char.toUpper (Nat.digitChar (v % 16))] =
      [Char.toUpper (Nat.digitChar (v / 16)), Char.toUpper (Nat.digitChar (v % 16))] := by
    rw [strip0x]
    rw [if_neg]
    intro hcon
    rcases hcon.2 with hx | hX
    · exact upper_digitChar_ne_x _ hm hx
    · exact upper_digitChar_ne_X _ hm hX
  rw [hstrip]
  unfold hexSeq
  have h1 := hexCharVal_upper_digitChar _ hd
  have h2 := hexCharVal_upper_digitChar _ hm
  simp only [List.takeWhile_cons, h1, h2, Option.isSome_some, if_true,
    List.takeWhile_nil]
  rw [if_neg (by simp)]
  simp only [List.foldl_cons, List.foldl_nil, h1, h2, Option.getD_some]
  have : (0 * 16 + v / 16) * 16 + v % 16 = v := by omega
  rw [this]
  rfl

/-- Extracting the `x`-th fixed-width chunk of a concatenation. -/
theorem drop_take_flatten {k : Nat} :
    ∀ (gs : List (List Char)) (x : Nat), (∀ g ∈ gs, g.length = k) →
      x < gs.length → (gs.flatten.drop (x * k)).take k = gs.getD x [] := by
  intro gs
  induction gs with
  | nil => intro x _ hx; simp at hx
  | cons g rest ih =>
    intro x hlen hx
    have hgl : g.length = k := hlen g (List.mem_cons_self _ _)
    cases x with
    | zero =>
      simp only [List.flatten_cons, Nat.zero_mul, List.drop_zero]
      rw [← hgl, List.take_left]
      rfl
    | succ n =>
      simp only [List.flatten_cons]
      have harith : (n + 1) * k = g.length + n * k := by rw [hgl]; ring
      rw [harith, List.drop_append]
      rw [ih n (fun m hm => hlen m (List.mem_cons_of_mem _ hm)) (by simp at hx; omega)]
      rfl

namespace V1

/-- States reachable through v1 `create` followed by `setPixel` calls
with 8-bit channels: consistent dimensions, constructor metadata, and
every cell a four-byte RGBA array. -/
def Wf (img : EHEXImage) (W H : Nat) : Prop :=
  img.magic = "EHEX" ∧ img.version = some 1 ∧ img.channels = some 4 ∧
  img.width = some (W : Int) ∧ img.height = some (H : Int) ∧
  img.pixels.length = H ∧
  ∀ row ∈ img.pixels, row.length = W ∧
    ∀ c ∈ row, ∃ r g b a : Nat, r < 256 ∧ g < 256 ∧ b < 256 ∧ a < 256 ∧
      c = [some (r : Int), some (g : Int), some (b : Int), some (a : Int)]

theorem wf_create_v1 (w h : Nat) : Wf (create w h) w h := by
  refine ⟨rfl, rfl, rfl, rfl, rfl, ?_, ?_⟩
  · unfold create createEmptyPixels
    simp [jsIter]
  · intro row hrow
    unfold create createEmptyPixels at hrow
    simp only [] at hrow
    rw [List.eq_of_mem_replicate hrow]
    constructor
    · simp [jsIter]
    · intro c hc
      rw [List.eq_of_mem_replicate hc]
      exact ⟨0, 0, 0, 255, by omega, by omega, by omega, by omega, rfl⟩

theorem wf_setPixel_v1 {img : EHEXImage} {W H : Nat} (hwf : Wf img W H)
    (x y : Int) {r g b a : Nat}
    (hr : r < 256) (hg : g < 256) (hb : b < 256) (ha : a < 256) :
    Wf (setPixel img x y (some (r : Int)) (some (g : Int)) (some (b : Int))
      (some (a : Int))) W H := by
  obtain ⟨hm, hver, hch, hw, hh, hlen, hcells⟩ := hwf
  unfold setPixel
  by_cases hbnd : inBounds img x y
  · rw [if_pos hbnd]
    refine ⟨hm, hver, hch, hw, hh, ?_, ?_⟩
    · simp [hlen]
    · intro row hrow
      rcases List.mem_or_eq_of_mem_set hrow with hmem | heq
      · exact hcells row hmem
      · subst heq
        have hymem : y.toNat < img.pixels.length := by
          unfold inBounds at hbnd
          rw [hh] at hbnd
          simp [jsLtNum] at hbnd
          omega
        have hrmem : img.pixels.getD y.toNat [] ∈ img.pixels :=
          getD_mem_of_lt _ _ hymem
        obtain ⟨hrl, hrc⟩ := hcells _ hrmem
        constructor
        · rw [List.length_set]
          exact hrl
        · intro c hc
          rcases List.mem_or_eq_of_mem_set hc with hcm | hce
          · exact hrc c hcm
          · exact ⟨r, g, b, a, hr, hg, hb, ha, hce⟩
  · rw [if_neg hbnd]
    exact ⟨hm, hver, hch, hw, hh, hlen, hcells⟩

theorem wf_applyOps_v1 {img : EHEXImage} {W H : Nat} (hwf : Wf img W H)
    (ops : List Op)
    (hops : ∀ op ∈ ops, op.2.2.1 < 256 ∧ op.2.2.2.1 < 256 ∧
      op.2.2.2.2.1 < 256 ∧ op.2.2.2.2.2 < 256) :
    Wf (applyOps img ops) W H := by
  induction ops generalizing img with
  | nil => exact hwf
  | cons op rest ih =>
    unfold applyOps
    rw [List.foldl_cons]
    obtain ⟨h1, h2, h3, h4⟩ := hops op (List.mem_cons_self _ _)
    exact ih (wf_setPixel_v1 hwf _ _ h1 h2 h3 h4)
      (fun o ho => hops o (List.mem_cons_of_mem _ ho))

end V1

namespace V1

/-- The channel value at position `i` of a cell array. -/
def chan (c : List JsNum) (i : Nat) : Nat := ((c.getD i none).getD 0).toNat

/-- The eight uppercase hex characters of one encoded v1 pixel. -/
def groupU (c : List JsNum) : List Char :=
  pairU (chan c 0) ++ pairU (chan c 1) ++ pairU (chan c 2) ++ pairU (chan c 3)

theorem groupU_length (c : List JsNum) : (groupU c).length = 8 := by
  simp [groupU, pairU]

theorem hexToRgba_groupU {r g b a : Nat}
    (hr : r < 256) (hg : g < 256) (hb : b < 256) (ha : a < 256) :
    hexToRgba (String.mk (pairU r ++ pairU g ++ pairU b ++ pairU a)) =
      [some (r : Int), some (g : Int), some (b : Int), some (a : Int)] := by
  unfold hexToRgba jsSubstr
  rw [data_mk]
  have e1 : (((pairU r ++ pairU g ++ pairU b ++ pairU a).take 2).drop 0) = pairU r := by
    simp [pairU]
  have e2 : (((pairU r ++ pairU g ++ pairU b ++ pairU a).take 4).drop 2) = pairU g := by
    simp [pairU]
  have e3 : (((pairU r ++ pairU g ++ pairU b ++ pairU a).take 6).drop 4) = pairU b := by
    simp [pairU]
  have e4 : (((pairU r ++ pairU g ++ pairU b ++ pairU a).take 8).drop 6) = pairU a := by
    simp [pairU]
  rw [e1, e2, e3, e4]
  rw [jsParseHex_pairU hr, jsParseHex_pairU hg, jsParseHex_pairU hb, jsParseHex_pairU ha]

theorem groupU_of_cell {r g b a : Nat} :
    groupU [some (r : Int), some (g : Int), some (b : Int), some (a : Int)] =
      pairU r ++ pairU g ++ pairU b ++ pairU a := by
  simp [groupU, chan]

theorem rowData_data_v1 {img : EHEXImage} {W H : Nat} (hwf : Wf img W H)
    {y : Nat} (hy : y < H) :
    (rowData img y).data = ((img.pixels.getD y []).map groupU).flatten := by
  obtain ⟨_, _, _, hw, _, hlen, hcells⟩ := id hwf
  have hrmem : img.pixels.getD y [] ∈ img.pixels := getD_mem_of_lt _ _ (by omega)
  obtain ⟨hrl, hrc⟩ := hcells _ hrmem
  unfold rowData strJoin
  rw [data_mk, hw, V2.jsIter_coe, List.map_map]
  have hcong : (List.range W).map (String.data ∘ fun x =>
      let cell := (img.pixels.getD y []).getD x []
      rgbaToHex (cell.getD 0 none) (cell.getD 1 none)
        (cell.getD 2 none) (cell.getD 3 none)) =
      (List.range W).map (fun x => groupU ((img.pixels.getD y []).getD x [])) := by
    apply List.map_congr_left
    intro x hx
    have hxW : x < W := List.mem_range.mp hx
    have hcmem : (img.pixels.getD y []).getD x [] ∈ img.pixels.getD y [] :=
      getD_mem_of_lt _ _ (by omega)
    obtain ⟨r, g, b, a, hr, hg, hb, ha, hc⟩ := hrc _ hcmem
    simp only [Function.comp_apply, hc]
    show (rgbaToHex (some (r : Int)) (some (g : Int)) (some (b : Int))
      (some (a : Int))).data = _
    rw [rgbaToHex_data hr hg hb ha, groupU_of_cell]
  rw [hcong]
  congr 1
  have hmr := map_range_getD (img.pixels.getD y []) [] groupU
  rw [hrl] at hmr
  exact hmr

theorem rowData_no_nl_v1 {img : EHEXImage} {W H : Nat} (hwf : Wf img W H)
    {y : Nat} (hy : y < H) : '\n' ∉ (rowData img y).data := by
  rw [rowData_data_v1 hwf hy]
  intro hmem
  obtain ⟨l, hl, hcl⟩ := List.mem_flatten.mp hmem
  obtain ⟨c, hc, heq⟩ := List.mem_map.mp hl
  subst heq
  obtain ⟨_, _, _, _, _, hlen, hcells⟩ := id hwf
  have hrmem : img.pixels.getD y [] ∈ img.pixels := getD_mem_of_lt _ _ (by omega)
  obtain ⟨_, hrc⟩ := hcells _ hrmem
  obtain ⟨r, g, b, a, hr, hg, hb, ha, hcv⟩ := hrc _ hc
  rw [hcv, groupU_of_cell] at hcl
  have hpair : ∀ v : Nat, v < 256 → '\n' ∉ pairU v := by
    intro v hv hmm
    simp only [pairU, List.mem_cons, List.not_mem_nil, or_false] at hmm
    rcases hmm with h | h
    · exact upper_digitChar_ne_nl _ (by omega) h.symm
    · exact upper_digitChar_ne_nl _ (by omega) h.symm
  simp only [List.mem_append] at hcl
  rcases hcl with ((h | h) | h) | h
  · exact hpair r hr h
  · exact hpair g hg h
  · exact hpair b hb h
  · exact hpair a ha h

end V1

namespace V1

theorem dataLines_length_v1 (img : EHEXImage) :
    (dataLines img).length = jsIter img.height := by
  simp [dataLines]

theorem parsePixels_dataLines_v1 {img : EHEXImage} {W H : Nat} (hwf : Wf img W H)
    (img2 : EHEXImage) (hw2 : img2.width = some (W : Int))
    (hh2 : img2.height = some (H : Int)) (extra : List String) :
    parsePixels img2 (dataLines img ++ extra) = img.pixels := by
  obtain ⟨hm, hver, hch, hw, hh, hlen, hcells⟩ := id hwf
  unfold parsePixels
  rw [hw2, hh2, V2.jsIter_coe, V2.jsIter_coe]
  apply List.ext_getElem
  · simp [hlen]
  · intro y h1 h2
    have hy : y < H := by simpa using h1
    simp only [List.getElem_map, List.getElem_range]
    have hdl : y < (dataLines img).length := by
      rw [dataLines_length_v1, hh, V2.jsIter_coe]
      omega
    have hline : (dataLines img ++ extra).getD y "" = rowData img y := by
      rw [List.getD_append _ _ _ _ hdl, List.getD_eq_getElem _ _ hdl]
      unfold dataLines
      simp only [List.getElem_map, List.getElem_range]
    simp only [hline]
    have hrmem : img.pixels.getD y [] ∈ img.pixels := getD_mem_of_lt _ _ (by omega)
    obtain ⟨hrl, hrc⟩ := hcells _ hrmem
    have hpix : img.pixels[y] = img.pixels.getD y [] :=
      (List.getD_eq_getElem _ _ (by omega)).symm
    rw [hpix]
    apply List.ext_getElem
    · simp only [List.length_map, List.length_range]
      omega
    · intro x hx1 hx2
      have hxW : x < W := by simpa using hx1
      simp only [List.getElem_map, List.getElem_range]
      have hcmem : (img.pixels.getD y []).getD x [] ∈ img.pixels.getD y [] :=
        getD_mem_of_lt _ _ (by omega)
      obtain ⟨r, g, b, a, hr, hg, hb, ha, hc⟩ := hrc _ hcmem
      have hsub : jsSubstr (rowData img y) (x * 8) ((x + 1) * 8) =
          String.mk (groupU ((img.pixels.getD y []).getD x [])) := by
        unfold jsSubstr
        rw [rowData_data_v1 hwf hy, List.drop_take]
        have h8 : (x + 1) * 8 - x * 8 = 8 := by omega
        rw [h8]
        have hlens : ∀ gl ∈ (img.pixels.getD y []).map groupU, gl.length = 8 := by
          intro gl hgl
          obtain ⟨c, _, hceq⟩ := List.mem_map.mp hgl
          rw [← hceq]
          exact groupU_length c
        have hxlen : x < ((img.pixels.getD y []).map groupU).length := by
          simp only [List.length_map]
          omega
        rw [drop_take_flatten _ x hlens hxlen]
        congr 1
        rw [List.getD_eq_getElem _ _ hxlen, List.getElem_map]
        congr 1
        exact (List.getD_eq_getElem (img.pixels.getD y []) []
          (show x < (img.pixels.getD y []).length by omega)).symm
      rw [hsub]
      have hcell : (img.pixels.getD y []).getD x [] = (img.pixels.getD y [])[x] :=
        List.getD_eq_getElem _ _ (by omega)
      rw [← hcell, hc, groupU_of_cell, hexToRgba_groupU hr hg hb ha]

end V1

namespace V1

theorem headerLines_wf_v1 {img : EHEXImage} {W H : Nat} (hwf : Wf img W H) :
    headerLines img =
      ["EHEX", "V1", V2.sizeLine W H, "CHANNELS:4", "PIXELS:"] := by
  obtain ⟨hm, hver, hch, hw, hh, _, _⟩ := hwf
  unfold headerLines V2.sizeLine
  rw [hm, hver, hch, hw, hh, jsNumToString_coe, jsNumToString_coe]
  have hv1 : "V" ++ jsNumToString (some 1) = "V1" := by decide
  have hc4 : "CHANNELS:" ++ jsNumToString (some 4) = "CHANNELS:4" := by decide
  rw [hv1, hc4]

theorem decodeHeader_v1line (img : EHEXImage) (rest : List String) :
    decodeHeader img ("V1" :: rest) =
      decodeHeader { img with version := some 1 } rest := by
  rw [decodeHeader]
  rw [if_pos (show jsStartsWith "V1" "V" = true by decide)]
  have h1 : jsParseInt (jsSubstrFrom "V1" 1) = some 1 := by decide
  rw [h1]

theorem decodeHeader_sizeline_v1 (img : EHEXImage) (rest : List String) (W H : Nat) :
    decodeHeader img (V2.sizeLine W H :: rest) =
      decodeHeader
        { img with width := some (W : Int), height := some (H : Int) } rest := by
  have hnoV : jsStartsWith (V2.sizeLine W H) "V" = false := by
    unfold jsStartsWith
    rw [V2.sizeLine_data]
    simp [jsStartsWith.listStarts]
  have hyesS : jsStartsWith (V2.sizeLine W H) "SIZE:" = true := by
    unfold jsStartsWith
    rw [V2.sizeLine_data]
    simp [jsStartsWith.listStarts]
  have hdrop : jsSubstrFrom (V2.sizeLine W H) 5 =
      String.mk (natBaseChars 10 (W + 1) W ++ 'x' :: natBaseChars 10 (H + 1) H) := by
    unfold jsSubstrFrom
    rw [V2.sizeLine_data]
    rfl
  have hnoxW : 'x' ∉ natBaseChars 10 (W + 1) W := by
    intro hmem
    obtain ⟨d, hd, hc⟩ := natBaseChars_mem (by omega) _ _ _ hmem
    exact digitChar_ne_x d hd hc.symm
  have hnoxH : 'x' ∉ natBaseChars 10 (H + 1) H := by
    intro hmem
    obtain ⟨d, hd, hc⟩ := natBaseChars_mem (by omega) _ _ _ hmem
    exact digitChar_ne_x d hd hc.symm
  have hsplit : jsSplit 'x' (jsSubstrFrom (V2.sizeLine W H) 5) =
      [natDecStr W, natDecStr H] := by
    rw [hdrop]
    unfold jsSplit
    rw [data_mk, splitCh_append _ _ hnoxW, splitCh_no_sep _ hnoxH]
    rfl
  rw [decodeHeader]
  rw [if_neg (by rw [hnoV]; simp)]
  rw [if_pos hyesS]
  rw [hsplit]
  simp only [List.get?_eq_getElem?]
  have h0 : ([natDecStr W, natDecStr H] : List String)[0]? = some (natDecStr W) := rfl
  have h1 : ([natDecStr W, natDecStr H] : List String)[1]? = some (natDecStr H) := rfl
  rw [h0, h1]
  simp only [jsParseIntOpt]
  rw [jsParseInt_natDecStr, jsParseInt_natDecStr]

theorem decodeHeader_channelsline (img : EHEXImage) (rest : List String) :
    decodeHeader img ("CHANNELS:4" :: rest) =
      decodeHeader { img with channels := some 4 } rest := by
  rw [decodeHeader]
  rw [if_neg (show ¬ jsStartsWith "CHANNELS:4" "V" = true by decide)]
  rw [if_neg (show ¬ jsStartsWith "CHANNELS:4" "SIZE:" = true by decide)]
  rw [if_pos (show jsStartsWith "CHANNELS:4" "CHANNELS:" = true by decide)]
  have h4 : jsParseInt (jsSubstrFrom "CHANNELS:4" 9) = some 4 := by decide
  rw [h4]

theorem decodeHeader_pixelsline_v1 (img : EHEXImage) (rest : List String) :
    decodeHeader img ("PIXELS:" :: rest) =
      (none, { img with pixels := parsePixels img rest }) := by
  rw [decodeHeader]
  rw [if_neg (show ¬ jsStartsWith "PIXELS:" "V" = true by decide)]
  rw [if_neg (show ¬ jsStartsWith "PIXELS:" "SIZE:" = true by decide)]
  rw [if_neg (show ¬ jsStartsWith "PIXELS:" "CHANNELS:" = true by decide)]
  rw [if_pos rfl]

theorem encode_no_nl_v1 {img : EHEXImage} {W H : Nat} (hwf : Wf img W H) :
    ∀ l ∈ ["EHEX", "V1", V2.sizeLine W H, "CHANNELS:4", "PIXELS:"] ++ dataLines img,
      '\n' ∉ l.data := by
  intro l hl
  rcases List.mem_append.mp hl with hh | hd
  · simp only [List.mem_cons, List.not_mem_nil, or_false] at hh
    rcases hh with h | h | h | h | h
    · rw [h]; decide
    · rw [h]; decide
    · rw [h]; exact V2.sizeLine_no_nl W H
    · rw [h]; decide
    · rw [h]; decide
  · unfold dataLines at hd
    obtain ⟨y, hy, heq⟩ := List.mem_map.mp hd
    have hyH : y < H := by
      have := List.mem_range.mp hy
      obtain ⟨_, _, _, _, hhh, _, _⟩ := id hwf
      rw [hhh, V2.jsIter_coe] at this
      exact this
    rw [← heq]
    exact rowData_no_nl_v1 hwf hyH

/-- Decoding an encoded well-formed v1 grid into any receiver image
succeeds and reproduces the grid dimensions and pixels. -/
theorem decode_encode_v1 {img : EHEXImage} {W H : Nat} (hwf : Wf img W H)
    (img0 : EHEXImage) :
    decode img0 (encode img) =
      (none,
        { img0 with
          version := some 1,
          width := some (W : Int),
          height := some (H : Int),
          channels := some 4,
          pixels := img.pixels }) := by
  have hsplit : splitLines (encode img) =
      "EHEX" :: "V1" :: V2.sizeLine W H :: "CHANNELS:4" :: "PIXELS:" ::
        (dataLines img ++ [""]) := by
    unfold encode
    rw [headerLines_wf_v1 hwf]
    rw [splitLines_linesToData _ (encode_no_nl_v1 hwf)]
    simp
  unfold decode
  rw [hsplit]
  simp only [List.headD_cons]
  rw [if_neg (by simp)]
  simp only [List.drop_succ_cons, List.drop_zero]
  rw [decodeHeader_v1line, decodeHeader_sizeline_v1, decodeHeader_channelsline,
    decodeHeader_pixelsline_v1]
  rw [parsePixels_dataLines_v1 hwf _ rfl rfl]

end V1

/-! ### Magic-line failures and congruence -/

namespace V2

theorem getPixel_congr {a b : EHEXImage} (hw : a.width = b.width)
    (hh : a.height = b.height) (hp : a.pixels = b.pixels) (x y : Int) :
    getPixel a x y = getPixel b x y := by
  unfold getPixel inBounds
  rw [hw, hh, hp]

theorem decode_invalid {img : EHEXImage} {data : String}
    (h1 : firstLine data ≠ "EHEX2") (h2 : firstLine data ≠ "EHEX") :
    decode img data = (some .invalidFormat, img) := by
  unfold firstLine at h1 h2
  simp only [decode]
  rw [if_pos ⟨h1, h2⟩]

theorem decode_legacy {img : EHEXImage} {data : String}
    (h : firstLine data = "EHEX") :
    decode img data = (some .legacyV1, img) := by
  unfold firstLine at h
  simp only [decode]
  rw [h]
  rw [if_neg (by simp)]
  rw [if_pos rfl]

end V2

namespace V1

theorem getPixel_congr_v1 {a b : EHEXImage} (hw : a.width = b.width)
    (hh : a.height = b.height) (hp : a.pixels = b.pixels) (x y : Int) :
    getPixel a x y = getPixel b x y := by
  unfold getPixel inBounds
  rw [hw, hh, hp]

theorem decode_invalid_v1 {img : EHEXImage} {data : String}
    (h : firstLine data ≠ "EHEX") :
    decode img data = (some .invalidFormat, img) := by
  unfold firstLine at h
  simp only [decode]
  rw [if_pos h]

end V1

/-! ### Resize -/

namespace V2

theorem inBounds_iff {img : EHEXImage} {W H : Int} (hw : img.width = some W)
    (hh : img.height = some H) (x y : Int) :
    inBounds img x y = true ↔ (0 ≤ x ∧ x < W ∧ 0 ≤ y ∧ y < H) := by
  unfold inBounds
  rw [hw, hh]
  simp [jsLtNum, and_assoc]

theorem resize_spec (img : EHEXImage) (W H : Int) (hw : img.width = some W)
    (hh : img.height = some H) (nw nh : Int) :
    (resize img nw nh).width = some (min nw 150) ∧
    (resize img nw nh).height = some (min nh 25) ∧
    ∀ x y : Int, 0 ≤ x → 0 ≤ y → x < min nw 150 → y < min nh 25 →
      getPixel (resize img nw nh) x y =
        if x < min W (min nw 150) ∧ y < min H (min nh 25) then getPixel img x y
        else some 0 := by
  refine ⟨rfl, rfl, ?_⟩
  intro x y hx0 hy0 hxlt hylt
  have hyx : Int.ofNat y.toNat = y := by
    rw [Int.ofNat_eq_coe]
    omega
  have hxx : Int.ofNat x.toNat = x := by
    rw [Int.ofNat_eq_coe]
    omega
  have hcell : getPixel (resize img nw nh) x y =
      (if jsLtNum (Int.ofNat y.toNat) img.height ∧ jsLtNum (Int.ofNat x.toNat) img.width
        then (img.pixels.getD y.toNat []).getD x.toNat none
        else some 0) := by
    unfold getPixel
    rw [if_pos ((inBounds_iff (W := min nw 150) (H := min nh 25) rfl rfl x y).mpr
      ⟨hx0, hxlt, hy0, hylt⟩)]
    have hyb : y.toNat < (min nh 25).toNat := by omega
    have hxb : x.toNat < (min nw 150).toNat := by omega
    have hrow : (resize img nw nh).pixels.getD y.toNat [] =
        (List.range (min nw 150).toNat).map (fun xx =>
          if jsLtNum (Int.ofNat y.toNat) img.height ∧ jsLtNum (Int.ofNat xx) img.width
          then (img.pixels.getD y.toNat []).getD xx none else some 0) := by
      unfold resize
      rw [List.getD_eq_getElem _ _ (by
        simp only [List.length_map, List.length_range]
        exact hyb)]
      rw [List.getElem_map, List.getElem_range]
    rw [hrow]
    rw [List.getD_eq_getElem _ _ (by
      simp only [List.length_map, List.length_range]
      exact hxb)]
    rw [List.getElem_map, List.getElem_range]
  rw [hcell, hyx, hxx, hh, hw]
  simp only [jsLtNum, decide_eq_true_eq]
  by_cases hcase : x < min W (min nw 150) ∧ y < min H (min nh 25)
  · rw [if_pos ⟨by omega, by omega⟩, if_pos hcase]
    unfold getPixel
    rw [if_pos ((inBounds_iff hw hh x y).mpr ⟨hx0, by omega, hy0, by omega⟩)]
  · rw [if_neg (by omega), if_neg hcase]

end V2

/-! ### Encoded nibbles -/

namespace V2

theorem dataLines_nibbles {img : EHEXImage} {W H : Nat} (hwf : Wf img W H) :
    ∀ line ∈ dataLines img, ∀ c ∈ line.data,
      ∃ v : Nat, v < 16 ∧ hexCharVal c = some v := by
  intro line hline c hc
  unfold dataLines at hline
  obtain ⟨y, hy, heq⟩ := List.mem_map.mp hline
  have hyH : y < H := by
    have := List.mem_range.mp hy
    obtain ⟨_, _, _, hhh, _, _⟩ := id hwf
    rw [hhh, jsIter_coe] at this
    exact this
  rw [← heq, rowData_data hwf hyH] at hc
  obtain ⟨cell, hcell, hceq⟩ := List.mem_map.mp hc
  obtain ⟨_, _, _, _, hlen, hcells⟩ := id hwf
  have hrmem : img.pixels.getD y [] ∈ img.pixels := getD_mem_of_lt _ _ (by omega)
  obtain ⟨_, hrc⟩ := hcells _ hrmem
  obtain ⟨v, hv, hcv⟩ := hrc _ hcell
  refine ⟨v, hv, ?_⟩
  rw [← hceq, hcv]
  have : theVal (some (v : Int)) = v := by simp [theVal]
  rw [this]
  exact hexCharVal_digitChar v hv

end V2

namespace V1

theorem inBounds_iff_v1 {img : EHEXImage} {W H : Int} (hw : img.width = some W)
    (hh : img.height = some H) (x y : Int) :
    inBounds img x y = true ↔ (0 ≤ x ∧ x < W ∧ 0 ≤ y ∧ y < H) := by
  unfold inBounds
  rw [hw, hh]
  simp [jsLtNum, and_assoc]

end V1

namespace V2

theorem setPixel_chars (img : EHEXImage) (x y : Int) (v : JsNum) :
    (setPixel img x y v).chars = img.chars := by
  unfold setPixel
  split
  · rfl
  · rfl

theorem applyOps_chars (img : EHEXImage) (ops : List Op) :
    (applyOps img ops).chars = img.chars := by
  induction ops generalizing img with
  | nil => rfl
  | cons op rest ih =>
    unfold applyOps
    rw [List.foldl_cons]
    have hrest := ih (setPixel img op.1 op.2.1 (some (op.2.2 : Int)))
    unfold applyOps at hrest
    rw [hrest]
    exact setPixel_chars _ _ _ _

/-- Any `V`-prefixed header line declaring a version other than `2`
aborts the v2 header loop with the unsupported-version error, whatever
non-`V`, non-`PIXELS:` lines precede it. -/
theorem decodeHeader_version_err (vline : String) (n : Int)
    (hv : jsStartsWith vline "V" = true)
    (hp : jsParseInt (jsSubstrFrom vline 1) = some n) (hn : n ≠ 2) :
    ∀ (pre : List String),
      (∀ l ∈ pre, jsStartsWith l "V" = false ∧ l ≠ "PIXELS:") →
      ∀ (img : EHEXImage) (rest : List String),
        (decodeHeader img (pre ++ vline :: rest)).1 =
          some (.unsupportedVersion (some n)) := by
  intro pre
  induction pre with
  | nil =>
    intro _ img rest
    simp only [List.nil_append]
    rw [decodeHeader, if_pos hv, hp]
    rw [if_pos (by simpa using hn)]
  | cons l pre ih =>
    intro hpre img rest
    simp only [List.cons_append]
    rw [decodeHeader]
    rw [if_neg (by rw [(hpre l (List.mem_cons_self _ _)).1]; simp)]
    by_cases hs : jsStartsWith l "SIZE:" = true
    · rw [if_pos hs]
      exact ih (fun m hm => hpre m (List.mem_cons_of_mem _ hm)) _ rest
    · rw [if_neg hs]
      rw [if_neg (hpre l (List.mem_cons_self _ _)).2]
      exact ih (fun m hm => hpre m (List.mem_cons_of_mem _ hm)) _ rest

end V2

/-- The 8 × 8 scenario grid: `create(8,8)` then
`setPixel(x, y, (x + y) % 16)` for every cell, in the source's
row-major order. -/
def scenarioGrid : V2.EHEXImage :=
  (List.range 8).foldl (fun g y =>
    (List.range 8).foldl (fun g2 x =>
      V2.setPixel g2 (Int.ofNat x) (Int.ofNat y) (some (((x + y) % 16 : Nat) : Int))) g)
    (V2.create 8 8)

/-! ### The claims -/

/-- C1: for every grid produced by the constructor followed by any
finite sequence of `setPixel` calls with in-bounds coordinates and
in-range values (v2: palette index below 16; v1: four 8-bit channels),
decoding the text produced by `encode` succeeds and yields a grid with
the same width, the same height, and the same value at every cell. -/
theorem claim_C1_roundtrip :
    (∀ (w h : Nat) (ops : List V2.Op) (img0 : V2.EHEXImage),
      (∀ op ∈ ops, (0 ≤ op.1 ∧ op.1 < ((min w 150 : Nat) : Int) ∧
          0 ≤ op.2.1 ∧ op.2.1 < ((min h 25 : Nat) : Int)) ∧ op.2.2 < 16) →
      (V2.decode img0 (V2.encode (V2.applyOps (V2.create w h) ops))).1 = none ∧
      (V2.decode img0 (V2.encode (V2.applyOps (V2.create w h) ops))).2.width =
        (V2.applyOps (V2.create w h) ops).width ∧
      (V2.decode img0 (V2.encode (V2.applyOps (V2.create w h) ops))).2.height =
        (V2.applyOps (V2.create w h) ops).height ∧
      ∀ x y : Int,
        V2.getPixel
          (V2.decode img0 (V2.encode (V2.applyOps (V2.create w h) ops))).2 x y =
        V2.getPixel (V2.applyOps (V2.create w h) ops) x y) ∧
    (∀ (w h : Nat) (ops : List V1.Op) (img0 : V1.EHEXImage),
      (∀ op ∈ ops, (0 ≤ op.1 ∧ op.1 < (w : Int) ∧
          0 ≤ op.2.1 ∧ op.2.1 < (h : Int)) ∧
        op.2.2.1 < 256 ∧ op.2.2.2.1 < 256 ∧
          op.2.2.2.2.1 < 256 ∧ op.2.2.2.2.2 < 256) →
      (V1.decode img0 (V1.encode (V1.applyOps (V1.create w h) ops))).1 = none ∧
      (V1.decode img0 (V1.encode (V1.applyOps (V1.create w h) ops))).2.width =
        (V1.applyOps (V1.create w h) ops).width ∧
      (V1.decode img0 (V1.encode (V1.applyOps (V1.create w h) ops))).2.height =
        (V1.applyOps (V1.create w h) ops).height ∧
      ∀ x y : Int,
        V1.getPixel
          (V1.decode img0 (V1.encode (V1.applyOps (V1.create w h) ops))).2 x y =
        V1.getPixel (V1.applyOps (V1.create w h) ops) x y) := by
  constructor
  · intro w h ops img0 hops
    have hwf := V2.wf_applyOps (V2.wf_create w h) ops (fun op hop => (hops op hop).2)
    have hde := V2.decode_encode hwf img0
    rw [hde]
    obtain ⟨_, _, hgw, hgh, _, _⟩ := id hwf
    refine ⟨rfl, hgw.symm, hgh.symm, ?_⟩
    intro x y
    apply V2.getPixel_congr
    · exact hgw.symm
    · exact hgh.symm
    · rfl
  · intro w h ops img0 hops
    have hwf := V1.wf_applyOps_v1 (V1.wf_create_v1 w h) ops (fun op hop => (hops op hop).2)
    have hde := V1.decode_encode_v1 hwf img0
    rw [hde]
    obtain ⟨_, _, _, hgw, hgh, _, _⟩ := id hwf
    refine ⟨rfl, hgw.symm, hgh.symm, ?_⟩
    intro x y
    apply V1.getPixel_congr_v1
    · exact hgw.symm
    · exact hgh.symm
    · rfl

theorem claim_C1_roundtrip_witness :
    (V2.decode (V2.create 20 10)
      (V2.encode (V2.applyOps (V2.create 3 2) [(1, 0, 7)]))).1 = none ∧
    (V1.decode (V1.create 2 2)
      (V1.encode (V1.applyOps (V1.create 2 2) [(0, 1, 10, 20, 30, 255)]))).1 = none :=
  ⟨(claim_C1_roundtrip.1 3 2 [(1, 0, 7)] (V2.create 20 10) (by decide)).1,
   (claim_C1_roundtrip.2 2 2 [(0, 1, 10, 20, 30, 255)] (V1.create 2 2) (by decide)).1⟩

/-- C2 counterexample: on the v1 grid `create(2,2)` the out-of-bounds
read `getPixel(-1, 0)` returns `[0, 0, 0, 0]`, not the default fill
`[0, 0, 0, 255]` the claim asserts. -/
theorem claim_C2_counterexample :
    V1.getPixel (V1.create 2 2) (-1) 0 = [some 0, some 0, some 0, some 0] ∧
    V1.getPixel (V1.create 2 2) (-1) 0 ≠ [some 0, some 0, some 0, some 255] := by
  decide

/-- C2 (amended): for every grid and every out-of-bounds coordinate,
`getPixel` returns the zero value without error: `[0, 0, 0, 0]`
(transparent black, not the `(0, 0, 0, 255)` default fill) for v1, and
palette index `0` for v2. -/
theorem claim_C2_oob_get :
    (∀ (img : V1.EHEXImage) (W H x y : Int), img.width = some W →
      img.height = some H → (x < 0 ∨ W ≤ x ∨ y < 0 ∨ H ≤ y) →
      V1.getPixel img x y = [some 0, some 0, some 0, some 0]) ∧
    (∀ (img : V2.EHEXImage) (W H x y : Int), img.width = some W →
      img.height = some H → (x < 0 ∨ W ≤ x ∨ y < 0 ∨ H ≤ y) →
      V2.getPixel img x y = some 0) := by
  constructor
  · intro img W H x y hw hh hout
    unfold V1.getPixel
    rw [if_neg (fun hcon => by
      obtain ⟨h1, h2, h3, h4⟩ := (V1.inBounds_iff_v1 hw hh x y).mp hcon
      rcases hout with h | h | h | h <;> omega)]
  · intro img W H x y hw hh hout
    unfold V2.getPixel
    rw [if_neg (fun hcon => by
      obtain ⟨h1, h2, h3, h4⟩ := (V2.inBounds_iff hw hh x y).mp hcon
      rcases hout with h | h | h | h <;> omega)]

theorem claim_C2_oob_get_witness :
    V1.getPixel (V1.create 2 2) (-1) 0 = [some 0, some 0, some 0, some 0] ∧
    V2.getPixel (V2.create 2 2) 0 99 = some 0 :=
  ⟨claim_C2_oob_get.1 (V1.create 2 2) 2 2 (-1) 0 (by decide) (by decide)
      (by left; decide),
   claim_C2_oob_get.2 (V2.create 2 2) 2 2 0 99 (by decide) (by decide)
      (by right; right; right; decide)⟩

/-- C3: for every input text whose first line is the legacy magic
`EHEX`, the v2 decoder stops with the legacy-rejection error, whose
message differs from the invalid-magic message, and leaves the image
(in particular its pixels) untouched — no pixel parsing happens. -/
theorem claim_C3_legacy_rejection :
    ∀ (img : V2.EHEXImage) (data : String), firstLine data = "EHEX" →
      V2.decode img data = (some V2.DecodeErr.legacyV1, img) ∧
      V2.DecodeErr.message V2.DecodeErr.legacyV1 ≠
        V2.DecodeErr.message V2.DecodeErr.invalidFormat :=
  fun _ _ h => ⟨V2.decode_legacy h, by decide⟩

theorem claim_C3_legacy_rejection_witness :
    V2.decode (V2.create 2 2) "EHEX\nV1\nSIZE:9x9\nPIXELS:\n" =
      (some V2.DecodeErr.legacyV1, V2.create 2 2) ∧
    V2.DecodeErr.message V2.DecodeErr.legacyV1 ≠
      V2.DecodeErr.message V2.DecodeErr.invalidFormat :=
  claim_C3_legacy_rejection (V2.create 2 2) "EHEX\nV1\nSIZE:9x9\nPIXELS:\n"
    (by decide)

/-- C4: v2 `resize` clamps the requested dimensions to `150 × 25`,
keeps every cell of the overlap with the old grid, and fills every
other cell of the new grid with the default value `0`. -/
theorem claim_C4_resize :
    ∀ (img : V2.EHEXImage) (W H : Int), img.width = some W →
      img.height = some H → ∀ nw nh : Int,
      (V2.resize img nw nh).width = some (min nw 150) ∧
      (V2.resize img nw nh).height = some (min nh 25) ∧
      ∀ x y : Int, 0 ≤ x → 0 ≤ y → x < min nw 150 → y < min nh 25 →
        V2.getPixel (V2.resize img nw nh) x y =
          if x < min W (min nw 150) ∧ y < min H (min nh 25)
          then V2.getPixel img x y else some 0 :=
  fun img W H hw hh nw nh => V2.resize_spec img W H hw hh nw nh

theorem claim_C4_resize_witness :
    V2.getPixel (V2.resize (V2.create 6 4) 3 30) 2 1 =
      (if (2 : Int) < min 6 (min 3 150) ∧ (1 : Int) < min 4 (min 30 25)
       then V2.getPixel (V2.create 6 4) 2 1 else some 0) :=
  (claim_C4_resize (V2.create 6 4) 6 4 (by decide) (by decide) 3 30).2.2 2 1
    (by decide) (by decide) (by decide) (by decide)

/-- C5 counterexample: the v1 decoder performs no version check — it
decodes a well-formed v1 file declaring version 3 without any error,
merely recording the declared version.  This falsifies the claim that
the v1 decoder fails with an unsupported-version error on a version it
does not implement. -/
theorem claim_C5_counterexample :
    (V1.decode (V1.create 1 1) "EHEX\nV3\nSIZE:1x1\nPIXELS:\n00000000\n").1 =
      none ∧
    (V1.decode (V1.create 1 1) "EHEX\nV3\nSIZE:1x1\nPIXELS:\n00000000\n").2.version =
      some 3 := by
  decide

/-- C5 (amended): the v2 decoder fails with the unsupported-version
error whenever, past the magic line, the first `V`-prefixed header line
(reached before any `PIXELS:` marker) declares a version integer other
than 2.  The v1 decoder has no version check at all: it stores the
declared version and continues, as the accompanying counterexample
shows on a file declaring version 3. -/
theorem claim_C5_version_rejection :
    (∀ (img : V2.EHEXImage) (pre : List String) (vline : String)
       (rest : List String) (n : Int) (data : String),
      splitLines data = "EHEX2" :: (pre ++ vline :: rest) →
      (∀ l ∈ pre, jsStartsWith l "V" = false ∧ l ≠ "PIXELS:") →
      jsStartsWith vline "V" = true →
      jsParseInt (jsSubstrFrom vline 1) = some n → n ≠ 2 →
      (V2.decode img data).1 =
        some (V2.DecodeErr.unsupportedVersion (some n))) ∧
    ((V1.decode (V1.create 1 1) "EHEX\nV3\nSIZE:1x1\nPIXELS:\n00000000\n").1 =
        none ∧
     (V1.decode (V1.create 1 1)
        "EHEX\nV3\nSIZE:1x1\nPIXELS:\n00000000\n").2.version = some 3) := by
  constructor
  · intro img pre vline rest n data hsplit hpre hv hp hn
    simp only [V2.decode]
    rw [hsplit]
    simp only [List.headD_cons]
    rw [if_neg (by simp)]
    rw [if_neg (by decide)]
    simp only [List.drop_succ_cons, List.drop_zero]
    exact V2.decodeHeader_version_err vline n hv hp hn pre hpre img rest
  · decide

theorem claim_C5_version_rejection_witness :
    (V2.decode (V2.create 2 2) "EHEX2\nV3\n").1 =
      some (V2.DecodeErr.unsupportedVersion (some 3)) :=
  claim_C5_version_rejection.1 (V2.create 2 2) [] "V3" [""] 3 "EHEX2\nV3\n"
    (by decide) (by decide) (by decide) (by decide) (by decide)

/-- C6: the palette table is the fixed sixteen-glyph ramp — defined at
every index in `[0,15]` and held unchanged by every grid built through
the constructor and `setPixel` — and for such grids every character of
every data line emitted by `encode` is a hex nibble denoting a value in
`[0,15]`. -/
theorem claim_C6_palette :
    V2.createDefaultCharset.length = 16 ∧
    (∀ i, i < 16 → (V2.createDefaultCharset.get? i).isSome = true) ∧
    ∀ (w h : Nat) (ops : List V2.Op), (∀ op ∈ ops, op.2.2 < 16) →
      (V2.applyOps (V2.create w h) ops).chars = V2.createDefaultCharset ∧
      ∀ line ∈ V2.dataLines (V2.applyOps (V2.create w h) ops),
        ∀ c ∈ line.data, ∃ v : Nat, v < 16 ∧ hexCharVal c = some v := by
  refine ⟨by decide, by decide, ?_⟩
  intro w h ops hops
  constructor
  · rw [V2.applyOps_chars]
    rfl
  · exact V2.dataLines_nibbles (V2.wf_applyOps (V2.wf_create w h) ops hops)

theorem claim_C6_palette_witness :
    (V2.applyOps (V2.create 2 2) [(0, 0, 15)]).chars = V2.createDefaultCharset :=
  (claim_C6_palette.2.2 2 2 [(0, 0, 15)] (by decide)).1

/-- C7: for every grid, every out-of-bounds coordinate and every value,
`setPixel` returns the grid completely unchanged (both v1 and v2); the
write is silently dropped rather than raising an error. -/
theorem claim_C7_oob_set :
    (∀ (img : V1.EHEXImage) (W H x y : Int) (r g b a : JsNum),
      img.width = some W → img.height = some H →
      (x < 0 ∨ W ≤ x ∨ y < 0 ∨ H ≤ y) →
      V1.setPixel img x y r g b a = img) ∧
    (∀ (img : V2.EHEXImage) (W H x y : Int) (v : JsNum),
      img.width = some W → img.height = some H →
      (x < 0 ∨ W ≤ x ∨ y < 0 ∨ H ≤ y) →
      V2.setPixel img x y v = img) := by
  constructor
  · intro img W H x y r g b a hw hh hout
    unfold V1.setPixel
    rw [if_neg (fun hcon => by
      obtain ⟨h1, h2, h3, h4⟩ := (V1.inBounds_iff_v1 hw hh x y).mp hcon
      rcases hout with h | h | h | h <;> omega)]
  · intro img W H x y v hw hh hout
    unfold V2.setPixel
    rw [if_neg (fun hcon => by
      obtain ⟨h1, h2, h3, h4⟩ := (V2.inBounds_iff hw hh x y).mp hcon
      rcases hout with h | h | h | h <;> omega)]

theorem claim_C7_oob_set_witness :
    V1.setPixel (V1.create 2 2) 0 (-3) (some 1) (some 2) (some 3) (some 4) =
      V1.create 2 2 ∧
    V2.setPixel (V2.create 2 2) 5 0 (some 3) = V2.create 2 2 :=
  ⟨claim_C7_oob_set.1 (V1.create 2 2) 2 2 0 (-3) (some 1) (some 2) (some 3)
      (some 4) (by decide) (by decide) (by right; right; left; decide),
   claim_C7_oob_set.2 (V2.create 2 2) 2 2 5 0 (some 3) (by decide) (by decide)
      (by right; left; decide)⟩

/-- C8: decoding any text whose first line is not a supported magic
string fails with the invalid-format error, leaving the image
untouched, regardless of what the remaining lines contain (for the v2
decoder the supported first lines are `EHEX2` and the
recognized-then-rejected `EHEX`; for the v1 decoder only `EHEX`). -/
theorem claim_C8_magic_rejection :
    (∀ (img : V2.EHEXImage) (data : String),
      firstLine data ≠ "EHEX2" → firstLine data ≠ "EHEX" →
      V2.decode img data = (some V2.DecodeErr.invalidFormat, img)) ∧
    (∀ (img : V1.EHEXImage) (data : String), firstLine data ≠ "EHEX" →
      V1.decode img data = (some V1.DecodeErr.invalidFormat, img)) :=
  ⟨fun _ _ h1 h2 => V2.decode_invalid h1 h2, fun _ _ h => V1.decode_invalid_v1 h⟩

theorem claim_C8_magic_rejection_witness :
    V2.decode (V2.create 2 2) "NOPE\nV2\nSIZE:1x1\nPIXELS:\n0\n" =
      (some V2.DecodeErr.invalidFormat, V2.create 2 2) ∧
    V1.decode (V1.create 2 2) "EHEX2\nV2\n" =
      (some V1.DecodeErr.invalidFormat, V1.create 2 2) :=
  ⟨claim_C8_magic_rejection.1 (V2.create 2 2) "NOPE\nV2\nSIZE:1x1\nPIXELS:\n0\n"
      (by decide) (by decide),
   claim_C8_magic_rejection.2 (V1.create 2 2) "EHEX2\nV2\n" (by decide)⟩

set_option maxHeartbeats 2000000 in
set_option maxRecDepth 100000 in
/-- C9: the 8 × 8 scenario grid (`create(8,8)`, then
`setPixel(x, y, (x+y) % 16)` on every cell) encodes to exactly the four
header lines `EHEX2`, `V2`, `SIZE:8x8`, `PIXELS:` followed by exactly
eight data lines of eight hex nibbles each, and decoding that text
reproduces the same 8 × 8 grid cell for cell. -/
theorem claim_C9_scenario :
    V2.encode scenarioGrid =
      "EHEX2\nV2\nSIZE:8x8\nPIXELS:\n01234567\n12345678\n23456789\n3456789a\n456789ab\n56789abc\n6789abcd\n789abcde\n" ∧
    (V2.decode (V2.create 20 10) (V2.encode scenarioGrid)).1 = none ∧
    (V2.decode (V2.create 20 10) (V2.encode scenarioGrid)).2.width =
      scenarioGrid.width ∧
    (V2.decode (V2.create 20 10) (V2.encode scenarioGrid)).2.height =
      scenarioGrid.height ∧
    (V2.decode (V2.create 20 10) (V2.encode scenarioGrid)).2.pixels =
      scenarioGrid.pixels := by
  decide

/-- C10: v2 decode is not atomic on error — on the input whose `SIZE:`
line precedes a `V3` version line, decode throws the
unsupported-version error, yet the image dimensions have already been
overwritten with the values from the `SIZE:` line, so the pre-decode
state is not preserved. -/
theorem claim_C10_non_atomic :
    (V2.decode (V2.create 2 2) "EHEX2\nSIZE:5x7\nV3\n").1 =
      some (V2.DecodeErr.unsupportedVersion (some 3)) ∧
    (V2.decode (V2.create 2 2) "EHEX2\nSIZE:5x7\nV3\n").2.width = some 5 ∧
    (V2.decode (V2.create 2 2) "EHEX2\nSIZE:5x7\nV3\n").2.height = some 7 ∧
    (V2.create 2 2).width = some 2 ∧ (V2.create 2 2).height = some 2 := by
  decide
